import Mathlib

/-!
Verification of the directus-sdk-utils event-dispatch adapter (`src/index.ts`):
the `defineHook` dispatch normalizer (filter/action/schedule wrappers with
shared error isolation via `logError`) and the schema-based payload readers
(`readHookPayload`, `readTriggerPayload`, `readTriggerKeys`).

The schema validator itself (zod) is an external dependency, not part of this
repository; its behaviour is modelled from the specification's schema
abstraction (object-shaped validators with a passthrough mode, unions
evaluated as ordered first-match) and pinned by the repository's test suite.
-/

set_option autoImplicit false

namespace DirectusSdkUtils

/-- JSON-like runtime values, as carried by hook payloads and contexts. -/
inductive Value where
  | str (s : String)
  | num (n : Int)
  | bool (b : Bool)
  | null
  | arr (elems : List Value)
  | obj (fields : List (String × Value))

/-- Handling of keys not declared by an object schema: zod's `strip` (default,
drop them) versus `passthrough` (keep them). -/
inductive UnknownKeys where
  | strip
  | passthrough
  deriving DecidableEq

/-- Modelled from the spec: the externally supplied schema abstraction (zod) —
either primitive validators, a single object-shaped validator with an
unknown-keys mode, or a closed ordered union of validators. -/
inductive Schema where
  | str
  | num
  | obj (shape : List (String × Schema)) (unknownKeys : UnknownKeys)
  | union (options : List Schema)

/-- First-occurrence field lookup in a JS-object association list. -/
def lookupField (k : String) : List (String × Value) → Option Value
  | [] => none
  | (k', v) :: rest => if k' = k then some v else lookupField k rest

/-- Keys declared by an object schema's shape. -/
def declaredKeys (shape : List (String × Schema)) : List String :=
  shape.map Prod.fst

/-- Fields of the raw object that the shape does not declare (the ones a
passthrough schema copies into its output verbatim). -/
def undeclaredFields (shape : List (String × Schema)) (pairs : List (String × Value)) :
    List (String × Value) :=
  pairs.filter (fun p => !(declaredKeys shape).contains p.1)

/-- Diagnostic produced when no alternative of a union accepts the value. -/
def invalidUnionMessage : String := "invalid_union: no alternative accepted the value"

mutual

/-- Modelled from the spec: `validate(value) -> Result<Value, Diagnostic>` of the
external validator. Declared fields are checked by their sub-validators; in
passthrough mode undeclared fields are carried through unchanged; a union is
evaluated as ordered first-match over its alternatives. -/
def parseSchema : Schema → Value → Except String Value
  | .str, .str s => .ok (.str s)
  | .str, _ => .error "expected string"
  | .num, .num n => .ok (.num n)
  | .num, _ => .error "expected number"
  | .obj shape mode, .obj pairs =>
      match parseShape shape pairs with
      | .error e => .error e
      | .ok declared =>
          match mode with
          | .strip => .ok (.obj declared)
          | .passthrough => .ok (.obj (declared ++ undeclaredFields shape pairs))
  | .obj _ _, _ => .error "expected object"
  | .union options, v => parseOptions options v
termination_by s _ => sizeOf s
decreasing_by all_goals (simp_wf <;> omega)

/-- Validation of the declared fields of an object shape, in declaration order;
the first missing or invalid declared field aborts the whole parse. -/
def parseShape : List (String × Schema) → List (String × Value) → Except String (List (String × Value))
  | [], _ => .ok []
  | (k, s) :: rest, pairs =>
      match lookupField k pairs with
      | none => .error ("missing required field " ++ k)
      | some v =>
          match parseSchema s v with
          | .error e => .error e
          | .ok v' =>
              match parseShape rest pairs with
              | .error e => .error e
              | .ok out => .ok ((k, v') :: out)
termination_by shape _ => sizeOf shape
decreasing_by all_goals (simp_wf <;> omega)

/-- Ordered first-match evaluation of a union's alternatives. -/
def parseOptions : List Schema → Value → Except String Value
  | [], _ => .error invalidUnionMessage
  | s :: rest, v =>
      match parseSchema s v with
      | .ok r => .ok r
      | .error _ => parseOptions rest v
termination_by options _ => sizeOf options
decreasing_by all_goals (simp_wf <;> omega)

end

/-- Does the validator accept the value? (zod's `safeParse(...).success`). -/
def accepts (s : Schema) (v : Value) : Bool :=
  match parseSchema s v with
  | .ok _ => true
  | .error _ => false

/-- Passthrough mode requested on one union alternative (spec §4.2: each
alternative of a union is attempted in passthrough mode). -/
def passthroughAlternative : Schema → Schema
  | .obj shape _ => .obj shape .passthrough
  | s => s

/-- Modelled from the spec: `schema.passthrough()` — request passthrough mode on
the top-level object schema; on a union, each alternative is attempted in
passthrough mode. Nested sub-schemas keep their own configured mode. -/
def Schema.passthrough : Schema → Schema
  | .obj shape _ => .obj shape .passthrough
  | .union options => .union (options.map passthroughAlternative)
  | s => s

/-- The context handed to a filter/action handler: the merged fields of the
base hook context and the per-call event context, together with the private
`_payload` field (`HookContext<T> = AccountableContext & \x7b _payload: T \x7d`). -/
structure HookContext where
  fields : List (String × Value)
  _payload : Value

/-- The `$trigger` entry of an operation's `context.data`: the triggering
event's payload and (optionally) its affected keys. -/
structure TriggerData where
  payload : Value
  keys : Option (List String)

/-- An operation's `context.data`, of which only `$trigger` is read here. -/
structure OperationData where
  trigger : TriggerData

/-- The slice of `OperationContext` read by the trigger accessors. -/
structure OperationContext where
  data : OperationData

/-- `readHookPayload` (index.ts 152-154): parse `context._payload` with the
schema switched to passthrough mode. -/
def readHookPayload (context : HookContext) (schema : Schema) : Except String Value :=
  parseSchema schema.passthrough context._payload

/-- `readTriggerPayload` (index.ts 144-146): parse `context.data.$trigger.payload`
with the schema switched to passthrough mode. -/
def readTriggerPayload (context : OperationContext) (schema : Schema) : Except String Value :=
  parseSchema schema.passthrough context.data.trigger.payload

/-- `readTriggerKeys` (index.ts 148-150): `context.data.$trigger.keys ?? []`,
with no validation at all. -/
def readTriggerKeys (context : OperationContext) : List String :=
  context.data.trigger.keys.getD []

/-! ## Dispatch normalizer (`defineHook`, index.ts 83-142) -/

/-- Errors thrown by handlers and logged by the context logger. -/
abbrev JsError := String

/-- The record of `logger.error` calls made through the context logger. -/
abbrev LogEntries := List JsError

/-- An awaited asynchronous body: it appends to the logger's record and either
resolves with a value or rejects with a thrown error. -/
def JsComp (α : Type) := LogEntries → LogEntries × Except JsError α

/-- `logError` (index.ts 50-53): report the error to the context logger, then
re-throw it. -/
def logError {α : Type} (err : JsError) : JsComp α :=
  fun log => (log ++ [err], .error err)

/-- A `try/catch` around an awaited handler invocation: on success the body's
value, on a thrown error the catch clause. -/
def tryCatch {α : Type} (body : Except JsError α) (onError : JsError → JsComp α) : JsComp α :=
  fun log =>
    match body with
    | .ok v => (log, .ok v)
    | .error e => onError e log

/-- The raw event metadata supplied by the framework: the always-present
`event`/`collection` fields, the optional `keys` list and singular `key`,
the action payload, and any further fields, which the wrappers copy verbatim. -/
structure RawMeta where
  event : String
  collection : String
  keys : Option (List String)
  key : Option String
  payload : Value
  extra : List (String × Value)

/-- The normalized metadata handed to a handler: same fields, with `keys`
always present as a list. -/
structure Meta where
  event : String
  collection : String
  keys : List String
  key : Option String
  payload : Value
  extra : List (String × Value)

/-- JS truthiness of the optional singular `key` field: absent, and the empty
string, are falsy; every other string is truthy. -/
def truthyKey : Option String → Bool
  | none => false
  | some s => s != ""

/-- Normalized filter metadata (index.ts 89-93): spread `rawMeta` and force
`keys` to `rawMeta.keys ?? []`; the singular `key` field is merely copied. -/
def filterMeta (m : RawMeta) : Meta :=
  { event := m.event, collection := m.collection, keys := m.keys.getD [],
    key := m.key, payload := m.payload, extra := m.extra }

/-- Contents of the `keys` list after the action-path normalization
(index.ts 109-112): `rawMeta.keys ?? []`, with `rawMeta.key` pushed at the end
when it is truthy. -/
def normalizedKeys (rawKeys : Option (List String)) (key : Option String) : List String :=
  rawKeys.getD [] ++ (if truthyKey key then [key.getD ""] else [])

/-- Normalized action metadata (index.ts 109-117): spread `rawMeta` with the
normalized `keys` list. -/
def actionMeta (m : RawMeta) : Meta :=
  { event := m.event, collection := m.collection, keys := normalizedKeys m.keys m.key,
    key := m.key, payload := m.payload, extra := m.extra }

/-- The merged handler context (index.ts 94-98 and 118-122): the per-call
event context's fields overlay the base hook context's fields (first-occurrence
lookup in `call ++ base`), and the `_payload` field overlays both. -/
def mergeContext (base call : List (String × Value)) (payload : Value) : HookContext :=
  { fields := call ++ base, _payload := payload }

/-- A registered filter handler, summarized by the value it resolves with or
the error it throws. -/
def FilterHandler := Meta → HookContext → Except JsError Value

/-- A registered action handler. -/
def ActionHandler := Meta → HookContext → Except JsError Unit

/-- A registered schedule handler (receives only the base hook context). -/
def ScheduleHandler := List (String × Value) → Except JsError Unit

/-- The wrapped raw filter callback (index.ts 87-103): build the normalized
metadata and merged context, `try` the handler, and on a thrown error
`logError` (log once, re-throw). Resolves with the handler's value, rejects
with its error. -/
def filterCallback (h : FilterHandler) (hookCtx : List (String × Value)) (payload : Value)
    (rawMeta : RawMeta) (eventCtx : List (String × Value)) : JsComp Value :=
  tryCatch (h (filterMeta rawMeta) (mergeContext hookCtx eventCtx payload)) logError

/-- Observable outcome of one raw action firing: what the raw registration
callback returns to its synchronous caller, and what the detached `run()` task
logs and how it settles. -/
structure ActionInvocation where
  immediate : Except JsError Unit
  taskLog : LogEntries
  taskOutcome : Except JsError Unit

/-- The wrapped raw action callback (index.ts 105-130): the whole body —
key normalization, handler invocation and the `try`/`logError` isolation —
runs inside the detached `run()` task (`void run()`), so the callback itself
always returns normally and at once. -/
def actionCallback (h : ActionHandler) (hookCtx : List (String × Value)) (rawMeta : RawMeta)
    (eventCtx : List (String × Value)) : ActionInvocation :=
  let task : JsComp Unit :=
    tryCatch (h (actionMeta rawMeta) (mergeContext hookCtx eventCtx rawMeta.payload)) logError
  { immediate := .ok (), taskLog := (task []).1, taskOutcome := (task []).2 }

/-- Observable outcome of one schedule firing: the synchronous return of the
raw callback (an async function never throws synchronously), plus the log and
settlement of the promise it produces. -/
structure ScheduleInvocation where
  syncReturn : Except JsError Unit
  promiseLog : LogEntries
  promiseOutcome : Except JsError Unit

/-- The wrapped raw schedule callback (index.ts 131-139): `try` the handler on
the base hook context, `logError` on a thrown error. -/
def scheduleCallback (h : ScheduleHandler) (hookCtx : List (String × Value)) : ScheduleInvocation :=
  let task : JsComp Unit := tryCatch (h hookCtx) logError
  { syncReturn := .ok (), promiseLog := (task []).1, promiseOutcome := (task []).2 }

/-! ## Heap models for the in-place effects

Two tiny heaps make object identity expressible: one for the `keys` arrays of
raw action metadata (to state that `keys.push` mutates the framework's array
in place) and one for context objects (to state that the object spread builds
a fresh object and leaves the base context untouched). A reference is an index
into the heap's cell list; allocation appends a cell. -/

/-- Heap of string arrays; `rawMeta.keys`, when present, is a reference into it. -/
abbrev KeysHeap := List (List String)

/-- The action-path keys normalization (index.ts 109-112) on the heap:
`let keys = meta.keys ?? []` either aliases the existing array or allocates a
fresh empty one, and `if (meta.key) keys.push(meta.key)` mutates that array in
place. Returns the new heap and the reference held by the normalized metadata. -/
def normalizeActionKeys (h : KeysHeap) (keysRef : Option Nat) (key : Option String) :
    KeysHeap × Nat :=
  match keysRef with
  | some r =>
      if truthyKey key then (h.set r (h.getD r [] ++ [key.getD ""]), r) else (h, r)
  | none =>
      if truthyKey key then (h ++ [[key.getD ""]], h.length) else (h ++ [[]], h.length)

/-- Heap of plain objects (association lists), for context objects. -/
abbrev ObjHeap := List (List (String × Value))

/-- The context-merging object spread (index.ts 94-98 and 118-122) on the heap:
allocates a fresh object whose mapping is `_payload ↦ payload`, and otherwise
per-call fields over base fields; no existing cell is written. -/
def spreadWithPayload (h : ObjHeap) (baseRef callRef : Nat) (payload : Value) : ObjHeap × Nat :=
  (h ++ [("_payload", payload) :: (h.getD callRef [] ++ h.getD baseRef [])], h.length)

/-! ## Helper lemmas -/

theorem lookupField_append_some {k : String} {a b : List (String × Value)} {v : Value}
    (h : lookupField k a = some v) : lookupField k (a ++ b) = some v := by
  induction a with
  | nil => simp [lookupField] at h
  | cons p rest ih =>
      obtain ⟨k', w⟩ := p
      simp only [lookupField, List.cons_append] at h ⊢
      split at h
      · simp_all [lookupField]
      · simp_all [lookupField]

theorem lookupField_append_none {k : String} {a b : List (String × Value)}
    (h : lookupField k a = none) : lookupField k (a ++ b) = lookupField k b := by
  induction a with
  | nil => simp
  | cons p rest ih =>
      obtain ⟨k', w⟩ := p
      simp only [lookupField, List.cons_append] at h ⊢
      split at h
      · simp at h
      · simp_all [lookupField]

theorem lookupField_eq_none_of_not_mem {k : String} {l : List (String × Value)}
    (h : k ∉ l.map Prod.fst) : lookupField k l = none := by
  induction l with
  | nil => rfl
  | cons p rest ih =>
      obtain ⟨k', w⟩ := p
      simp only [List.map_cons, List.mem_cons] at h
      push_neg at h
      simp only [lookupField]
      rw [if_neg (fun hkk : k' = k => h.1 hkk.symm), ih h.2]

theorem mem_keys_of_lookupField_isSome {k : String} {l : List (String × Value)}
    (h : (lookupField k l).isSome) : k ∈ l.map Prod.fst := by
  induction l with
  | nil => simp [lookupField] at h
  | cons p rest ih =>
      obtain ⟨k', w⟩ := p
      simp only [lookupField] at h
      by_cases hk : k' = k
      · simp [hk]
      · rw [if_neg hk] at h
        simp [ih h]

theorem lookupField_filter_isSome {k : String} {P : String × Value → Bool}
    {l : List (String × Value)} (h : (lookupField k (l.filter P)).isSome) :
    (lookupField k l).isSome := by
  induction l with
  | nil => simp [lookupField] at h
  | cons p rest ih =>
      obtain ⟨k', w⟩ := p
      by_cases hk : k' = k
      · simp [lookupField, hk]
      · by_cases hP : P (k', w)
        · simp only [List.filter_cons, hP, if_pos, lookupField, if_neg hk] at h
          simpa [lookupField, if_neg hk] using ih h
        · simp only [List.filter_cons, hP] at h
          simp only [Bool.false_eq_true, if_neg] at h
          simpa [lookupField, if_neg hk] using ih h

theorem lookupField_undeclared_of_not_mem {shape : List (String × Schema)}
    {pairs : List (String × Value)} {k : String}
    (h : k ∉ declaredKeys shape) :
    lookupField k (undeclaredFields shape pairs) = lookupField k pairs := by
  induction pairs with
  | nil => rfl
  | cons p rest ih =>
      obtain ⟨k', w⟩ := p
      by_cases hk : k' = k
      · subst hk
        have hkeep : undeclaredFields shape ((k', w) :: rest) = (k', w) :: undeclaredFields shape rest := by
          simp [undeclaredFields, List.filter_cons, h]
        rw [hkeep]
        simp [lookupField]
      · have hcons : lookupField k ((k', w) :: rest) = lookupField k rest := by
          simp [lookupField, if_neg hk]
        by_cases hP : k' ∈ declaredKeys shape
        · have hdrop : undeclaredFields shape ((k', w) :: rest) = undeclaredFields shape rest := by
            simp [undeclaredFields, List.filter_cons, hP]
          rw [hdrop, ih, hcons]
        · have hkeep : undeclaredFields shape ((k', w) :: rest) = (k', w) :: undeclaredFields shape rest := by
            simp [undeclaredFields, List.filter_cons, hP]
          rw [hkeep, hcons, ← ih]
          simp [lookupField, if_neg hk]

theorem lookupField_append_isSome {k : String} {a b : List (String × Value)}
    (h : (lookupField k (a ++ b)).isSome) :
    (lookupField k a).isSome ∨ (lookupField k b).isSome := by
  induction a with
  | nil => right; simpa using h
  | cons p rest ih =>
      obtain ⟨k', w⟩ := p
      by_cases hk : k' = k
      · left; simp [lookupField, hk]
      · simp only [lookupField, List.cons_append, if_neg hk] at h ⊢
        exact ih h

theorem parseShape_nil (pairs : List (String × Value)) : parseShape [] pairs = .ok [] := by
  simp [parseShape]

theorem parseShape_cons_ok {k : String} {s : Schema} {rest : List (String × Schema)}
    {pairs : List (String × Value)} {out : List (String × Value)}
    (h : parseShape ((k, s) :: rest) pairs = .ok out) :
    ∃ v v' out', lookupField k pairs = some v ∧ parseSchema s v = .ok v' ∧
      parseShape rest pairs = .ok out' ∧ out = (k, v') :: out' := by
  rw [parseShape] at h
  split at h
  · simp at h
  · rename_i v hlk
    split at h
    · simp at h
    · rename_i v' hps
      split at h
      · simp at h
      · rename_i out' hr
        simp only [Except.ok.injEq] at h
        exact ⟨v, v', out', hlk, hps, hr, h.symm⟩

theorem parseShape_ok_keys {shape : List (String × Schema)} {pairs out : List (String × Value)}
    (h : parseShape shape pairs = .ok out) : out.map Prod.fst = declaredKeys shape := by
  induction shape generalizing out with
  | nil => rw [parseShape_nil] at h; simp only [Except.ok.injEq] at h; simp [← h, declaredKeys]
  | cons p rest ih =>
      obtain ⟨k, s⟩ := p
      obtain ⟨v, v', out', -, -, hr, hout⟩ := parseShape_cons_ok h
      subst hout
      have hkeys := ih hr
      simp only [declaredKeys, List.map_cons] at hkeys ⊢
      rw [hkeys]

theorem parseShape_present {shape : List (String × Schema)} {pairs out : List (String × Value)}
    {k : String} (h : parseShape shape pairs = .ok out) (hk : k ∈ declaredKeys shape) :
    (lookupField k pairs).isSome := by
  induction shape generalizing out with
  | nil => simp [declaredKeys] at hk
  | cons p rest ih =>
      obtain ⟨k', s⟩ := p
      obtain ⟨v, v', out', hlk, -, hr, -⟩ := parseShape_cons_ok h
      simp only [declaredKeys, List.map_cons, List.mem_cons] at hk
      cases hk with
      | inl hkk => subst hkk; simp [hlk]
      | inr hkmem => exact ih hr hkmem

theorem parseShape_lookup_mem {shape : List (String × Schema)} {pairs out : List (String × Value)}
    {k : String} {s : Schema} (hnd : (declaredKeys shape).Nodup)
    (h : parseShape shape pairs = .ok out) (hmem : (k, s) ∈ shape) :
    ∃ v v', lookupField k pairs = some v ∧ parseSchema s v = .ok v' ∧
      lookupField k out = some v' := by
  induction shape generalizing out with
  | nil => simp at hmem
  | cons p rest ih =>
      obtain ⟨k0, s0⟩ := p
      obtain ⟨v, v', out', hlk, hps, hr, hout⟩ := parseShape_cons_ok h
      subst hout
      simp only [declaredKeys, List.map_cons, List.nodup_cons] at hnd
      cases List.mem_cons.mp hmem with
      | inl heq =>
          injection heq with hk hs
          subst hk
          subst hs
          exact ⟨v, v', hlk, hps, by simp [lookupField]⟩
      | inr hmem' =>
          obtain ⟨v1, v1', hlk1, hps1, hout1⟩ := ih hnd.2 hr hmem'
          have hkmem : k ∈ List.map Prod.fst rest := List.mem_map_of_mem Prod.fst hmem'
          have hk0 : k0 ≠ k := fun hkk => hnd.1 (hkk ▸ hkmem)
          exact ⟨v1, v1', hlk1, hps1, by simp [lookupField, if_neg hk0, hout1]⟩

theorem parseShape_cons_field_error {k : String} {s : Schema} {rest : List (String × Schema)}
    {pairs : List (String × Value)} {v : Value} {e : String}
    (hlk : lookupField k pairs = some v) (hps : parseSchema s v = .error e) :
    parseShape ((k, s) :: rest) pairs = .error e := by
  rw [parseShape, hlk]
  simp only [hps]

theorem parseShape_cons_missing {k : String} {s : Schema} {rest : List (String × Schema)}
    {pairs : List (String × Value)} (hlk : lookupField k pairs = none) :
    parseShape ((k, s) :: rest) pairs = .error ("missing required field " ++ k) := by
  rw [parseShape, hlk]


theorem parseShape_cons_step {k : String} {s : Schema} {rest : List (String × Schema)}
    {pairs : List (String × Value)} {v v' : Value}
    (hlk : lookupField k pairs = some v) (hps : parseSchema s v = .ok v') :
    parseShape ((k, s) :: rest) pairs =
      match parseShape rest pairs with
      | .error e => .error e
      | .ok out => .ok ((k, v') :: out) := by
  rw [parseShape, hlk]
  simp only [hps]

theorem parseShape_prefix_error {pre : List (String × Schema)} {k : String} {s : Schema}
    {post : List (String × Schema)} {pairs : List (String × Value)} {v : Value} {e : String}
    (hpre : ∀ p ∈ pre, ∃ w w', lookupField p.1 pairs = some w ∧ parseSchema p.2 w = .ok w')
    (hlk : lookupField k pairs = some v) (hps : parseSchema s v = .error e) :
    parseShape (pre ++ (k, s) :: post) pairs = .error e := by
  induction pre with
  | nil => simpa using parseShape_cons_field_error hlk hps
  | cons p rest ih =>
      obtain ⟨k0, s0⟩ := p
      obtain ⟨w, w', hw, hw'⟩ := hpre (k0, s0) (List.mem_cons_self _ _)
      have htail := ih (fun q hq => hpre q (List.mem_cons_of_mem _ hq))
      rw [List.cons_append, parseShape_cons_step hw hw', htail]

theorem parseShape_prefix_missing {pre : List (String × Schema)} {k : String} {s : Schema}
    {post : List (String × Schema)} {pairs : List (String × Value)}
    (hpre : ∀ p ∈ pre, ∃ w w', lookupField p.1 pairs = some w ∧ parseSchema p.2 w = .ok w')
    (hlk : lookupField k pairs = none) :
    parseShape (pre ++ (k, s) :: post) pairs = .error ("missing required field " ++ k) := by
  induction pre with
  | nil => simpa using parseShape_cons_missing hlk
  | cons p rest ih =>
      obtain ⟨k0, s0⟩ := p
      obtain ⟨w, w', hw, hw'⟩ := hpre (k0, s0) (List.mem_cons_self _ _)
      have htail := ih (fun q hq => hpre q (List.mem_cons_of_mem _ hq))
      rw [List.cons_append, parseShape_cons_step hw hw', htail]

theorem parseSchema_obj_eq {shape : List (String × Schema)} {mode : UnknownKeys}
    {pairs : List (String × Value)} :
    parseSchema (.obj shape mode) (.obj pairs) =
      match parseShape shape pairs with
      | .error e => .error e
      | .ok declared =>
          match mode with
          | .strip => .ok (.obj declared)
          | .passthrough => .ok (.obj (declared ++ undeclaredFields shape pairs)) := by
  rw [parseSchema]

theorem parseObj_passthrough_ok {shape : List (String × Schema)}
    {pairs : List (String × Value)} {w : Value}
    (h : parseSchema (.obj shape .passthrough) (.obj pairs) = .ok w) :
    ∃ declared, parseShape shape pairs = .ok declared ∧
      w = .obj (declared ++ undeclaredFields shape pairs) := by
  rw [parseSchema_obj_eq] at h
  split at h
  · simp at h
  · rename_i declared hd
    simp only [Except.ok.injEq] at h
    exact ⟨declared, hd, h.symm⟩

theorem parseObj_error_of_parseShape_error {shape : List (String × Schema)}
    {mode : UnknownKeys} {pairs : List (String × Value)} {e : String}
    (h : parseShape shape pairs = .error e) :
    parseSchema (.obj shape mode) (.obj pairs) = .error e := by
  rw [parseSchema_obj_eq, h]

theorem parseOptions_cons_ok {s : Schema} {rest : List Schema} {v r : Value}
    (h : parseSchema s v = .ok r) : parseOptions (s :: rest) v = .ok r := by
  rw [parseOptions, h]

theorem parseOptions_cons_error {s : Schema} {rest : List Schema} {v : Value} {e : String}
    (h : parseSchema s v = .error e) : parseOptions (s :: rest) v = parseOptions rest v := by
  rw [parseOptions, h]

theorem accepts_false_iff {s : Schema} {v : Value} :
    accepts s v = false ↔ ∃ e, parseSchema s v = .error e := by
  unfold accepts
  cases h : parseSchema s v <;> simp

theorem accepts_true_iff {s : Schema} {v : Value} :
    accepts s v = true ↔ ∃ r, parseSchema s v = .ok r := by
  unfold accepts
  cases h : parseSchema s v <;> simp

theorem parseOptions_skip {pre rest : List Schema} {v : Value}
    (h : ∀ t ∈ pre, accepts t v = false) :
    parseOptions (pre ++ rest) v = parseOptions rest v := by
  induction pre with
  | nil => simp
  | cons s pre' ih =>
      obtain ⟨e, he⟩ := accepts_false_iff.mp (h s (List.mem_cons_self _ _))
      rw [List.cons_append, parseOptions_cons_error he,
        ih (fun t ht => h t (List.mem_cons_of_mem _ ht))]

theorem parseOptions_all_fail {options : List Schema} {v : Value}
    (h : ∀ t ∈ options, accepts t v = false) :
    parseOptions options v = .error invalidUnionMessage := by
  have hskip : parseOptions (options ++ []) v = parseOptions [] v := parseOptions_skip h
  rw [List.append_nil] at hskip
  rw [hskip, parseOptions]

theorem passthrough_obj (shape : List (String × Schema)) (mode : UnknownKeys) :
    (Schema.obj shape mode).passthrough = .obj shape .passthrough := rfl

theorem passthrough_union (options : List Schema) :
    (Schema.union options).passthrough = .union (options.map passthroughAlternative) := rfl

theorem readHookPayload_union_eq (ctx : HookContext) (options : List Schema) :
    readHookPayload ctx (.union options) =
      parseOptions (options.map passthroughAlternative) ctx._payload := by
  rw [readHookPayload, passthrough_union, parseSchema]

/-- Core preservation property of a passthrough object parse: a field of the
raw object that the shape does not declare survives to the output unchanged. -/
theorem parseObj_passthrough_preserves {shape : List (String × Schema)}
    {pairs out : List (String × Value)} {k : String} {v : Value}
    (h : parseSchema (.obj shape .passthrough) (.obj pairs) = .ok (.obj out))
    (hk : k ∉ declaredKeys shape) (hlk : lookupField k pairs = some v) :
    lookupField k out = some v := by
  obtain ⟨declared, hd, hw⟩ := parseObj_passthrough_ok h
  injection hw with hw
  subst hw
  have hnone : lookupField k declared = none :=
    lookupField_eq_none_of_not_mem (by rw [parseShape_ok_keys hd]; exact hk)
  rw [lookupField_append_none hnone, lookupField_undeclared_of_not_mem hk, hlk]

/-- A passthrough object parse never invents fields: every output field was
present in the raw object. -/
theorem parseObj_passthrough_no_invent {shape : List (String × Schema)}
    {pairs out : List (String × Value)} {k : String}
    (h : parseSchema (.obj shape .passthrough) (.obj pairs) = .ok (.obj out))
    (hk : (lookupField k out).isSome) : (lookupField k pairs).isSome := by
  obtain ⟨declared, hd, hw⟩ := parseObj_passthrough_ok h
  injection hw with hw
  subst hw
  cases lookupField_append_isSome hk with
  | inl hdec =>
      have : k ∈ declaredKeys shape := by
        rw [← parseShape_ok_keys hd]; exact mem_keys_of_lookupField_isSome hdec
      exact parseShape_present hd this
  | inr hund => exact lookupField_filter_isSome hund

/-- Declared fields of an accepted passthrough object parse: the output binds
each declared key to the validated value of the corresponding raw field. -/
theorem parseObj_passthrough_declared {shape : List (String × Schema)}
    {pairs out : List (String × Value)} {k : String} {s : Schema}
    (hnd : (declaredKeys shape).Nodup)
    (h : parseSchema (.obj shape .passthrough) (.obj pairs) = .ok (.obj out))
    (hmem : (k, s) ∈ shape) :
    ∃ v v', lookupField k pairs = some v ∧ parseSchema s v = .ok v' ∧
      lookupField k out = some v' := by
  obtain ⟨declared, hd, hw⟩ := parseObj_passthrough_ok h
  injection hw with hw
  subst hw
  obtain ⟨v, v', hlk, hps, hout⟩ := parseShape_lookup_mem hnd hd hmem
  exact ⟨v, v', hlk, hps, lookupField_append_some hout⟩

theorem getD_set_self {α : Type} (l : List α) (i : Nat) (x d : α) (h : i < l.length) :
    (l.set i x).getD i d = x := by
  induction l generalizing i with
  | nil => simp at h
  | cons a rest ih =>
      cases i with
      | zero => rfl
      | succ n => simpa using ih n (by simpa using h)

theorem getD_set_ne {α : Type} (l : List α) (i j : Nat) (x d : α) (h : j ≠ i) :
    (l.set i x).getD j d = l.getD j d := by
  induction l generalizing i j with
  | nil => simp
  | cons a rest ih =>
      cases i with
      | zero => cases j with
          | zero => exact absurd rfl h
          | succ m => simp
      | succ n => cases j with
          | zero => simp
          | succ m => simpa using ih n m (fun hm => h (by rw [hm]))

theorem getD_append_left {α : Type} (l m : List α) (i : Nat) (d : α) (h : i < l.length) :
    (l ++ m).getD i d = l.getD i d := by
  induction l generalizing i with
  | nil => simp at h
  | cons a rest ih =>
      cases i with
      | zero => rfl
      | succ n => simpa using ih n (by simpa using h)

theorem getD_append_length {α : Type} (l : List α) (c d : α) :
    (l ++ [c]).getD l.length d = c := by
  induction l with
  | nil => rfl
  | cons a rest ih =>
      simp only [List.cons_append, List.length_cons, List.getD_cons_succ]
      exact ih

/-! ## Claims -/

/-- C10: `readTriggerKeys` performs no validation and returns
`context.data.$trigger.keys` unchanged, defaulted to the empty sequence when
that field is absent. -/
theorem readTriggerKeys_projection :
    (∀ (octx : OperationContext) (ks : List String),
       octx.data.trigger.keys = some ks → readTriggerKeys octx = ks)
    ∧ (∀ octx : OperationContext, octx.data.trigger.keys = none → readTriggerKeys octx = []) := by
  constructor
  · intro octx ks h
    simp [readTriggerKeys, h]
  · intro octx h
    simp [readTriggerKeys, h]

theorem readTriggerKeys_projection_witness :
    readTriggerKeys ⟨⟨⟨Value.null, some ["a", "b"]⟩⟩⟩ = ["a", "b"] ∧
    readTriggerKeys ⟨⟨⟨Value.null, none⟩⟩⟩ = [] :=
  ⟨readTriggerKeys_projection.1 _ _ rfl, readTriggerKeys_projection.2 _ rfl⟩

/-- C8: for every raw filter event the normalized meta is the raw meta with
every field copied and `keys` forced to `rawMeta.keys ?? []`; the singular
`key` field is never consulted in the filter path (it only gets copied, and
the normalized `keys` does not depend on it). -/
theorem filterMeta_copies_and_defaults_keys :
    (∀ m : RawMeta,
       (filterMeta m).event = m.event ∧ (filterMeta m).collection = m.collection ∧
       (filterMeta m).key = m.key ∧ (filterMeta m).payload = m.payload ∧
       (filterMeta m).extra = m.extra)
    ∧ (∀ (m : RawMeta) (ks : List String), m.keys = some ks → (filterMeta m).keys = ks)
    ∧ (∀ m : RawMeta, m.keys = none → (filterMeta m).keys = [])
    ∧ (∀ (m : RawMeta) (k1 k2 : Option String),
       (filterMeta { m with key := k1 }).keys = (filterMeta { m with key := k2 }).keys) := by
  refine ⟨fun m => ⟨rfl, rfl, rfl, rfl, rfl⟩, ?_, ?_, fun m k1 k2 => rfl⟩
  · intro m ks h
    simp [filterMeta, h]
  · intro m h
    simp [filterMeta, h]

theorem filterMeta_copies_and_defaults_keys_witness :
    (filterMeta ⟨"items.update", "articles", some ["a"], some "c", Value.null, []⟩).keys = ["a"] ∧
    (filterMeta ⟨"items.update", "articles", none, some "c", Value.null, []⟩).keys = [] :=
  ⟨filterMeta_copies_and_defaults_keys.2.1 _ _ rfl,
   filterMeta_copies_and_defaults_keys.2.2.1 _ rfl⟩

/-- C4 counterexample: the singular `key` field present but equal to the empty
string (a falsy value) is not appended — `if (meta.key)` tests truthiness, not
presence. The normalized keys list is `[]`, not `[""]`, and the normalized
action metadata agrees. -/
theorem actionKeys_present_falsy_key_not_appended :
    (normalizeActionKeys [] none (some "")).1.getD (normalizeActionKeys [] none (some "")).2 [] = []
    ∧ (actionMeta ⟨"items.create", "articles", none, some "", Value.null, []⟩).keys = []
    ∧ ¬((normalizeActionKeys [] none (some "")).1.getD (normalizeActionKeys [] none (some "")).2 []
        = [""]) := by
  refine ⟨rfl, rfl, ?_⟩
  intro h
  simp [normalizeActionKeys, truthyKey] at h

/-- C4 (amended): the normalized action `meta.keys` equals `rawMeta.keys`
defaulted to `[]`, with `rawMeta.key` appended exactly when the singular key
field is present and truthy (a non-empty string); concretely,
`keys ['a','b']` with `key 'c'` gives `['a','b','c']`, `key 'c'` alone `['c']`,
and neither field `[]`. -/
theorem actionKeys_normalization :
    (∀ (h : KeysHeap) (r : Nat) (key : Option String), r < h.length →
       (normalizeActionKeys h (some r) key).1.getD (normalizeActionKeys h (some r) key).2 [] =
         normalizedKeys (some (h.getD r [])) key)
    ∧ (∀ (h : KeysHeap) (key : Option String),
       (normalizeActionKeys h none key).1.getD (normalizeActionKeys h none key).2 [] =
         normalizedKeys none key)
    ∧ (∀ m : RawMeta, (actionMeta m).keys = normalizedKeys m.keys m.key)
    ∧ normalizedKeys (some ["a", "b"]) (some "c") = ["a", "b", "c"]
    ∧ normalizedKeys none (some "c") = ["c"]
    ∧ normalizedKeys none none = [] := by
  refine ⟨?_, ?_, fun m => rfl, rfl, rfl, rfl⟩
  · intro h r key hr
    simp only [normalizeActionKeys]
    by_cases ht : truthyKey key
    · rw [if_pos ht, getD_set_self _ _ _ _ (by simpa using hr)]
      simp [normalizedKeys, ht]
    · rw [if_neg ht]
      simp [normalizedKeys, ht]
  · intro h key
    simp only [normalizeActionKeys]
    by_cases ht : truthyKey key
    · rw [if_pos ht, getD_append_length]
      simp [normalizedKeys, ht]
    · rw [if_neg ht, getD_append_length]
      simp [normalizedKeys, ht]

theorem actionKeys_normalization_witness :
    (normalizeActionKeys [["a", "b"]] (some 0) (some "c")).1.getD
      (normalizeActionKeys [["a", "b"]] (some 0) (some "c")).2 [] = ["a", "b", "c"] := by
  have h := actionKeys_normalization.1 [["a", "b"]] 0 (some "c") (by decide)
  simpa [normalizedKeys, truthyKey] using h

/-- C9: in the action path, when `rawMeta.keys` is present the normalized keys
list is the very same array (the same reference is returned), and pushing the
truthy singular key mutates that array in place in the raw metadata's heap
cell; only when `rawMeta.keys` is absent is a fresh array allocated, leaving
every existing cell unchanged. -/
theorem actionKeys_aliases_raw_array :
    (∀ (h : KeysHeap) (r : Nat) (key : Option String),
       (normalizeActionKeys h (some r) key).2 = r)
    ∧ (∀ (h : KeysHeap) (r : Nat) (key : String), truthyKey (some key) = true →
       (normalizeActionKeys h (some r) (some key)).1 = h.set r (h.getD r [] ++ [key]))
    ∧ (∀ (h : KeysHeap) (r : Nat) (key : String), r < h.length → truthyKey (some key) = true →
       (normalizeActionKeys h (some r) (some key)).1.getD r [] = h.getD r [] ++ [key])
    ∧ (∀ (h : KeysHeap) (r : Nat) (key : Option String), truthyKey key = false →
       normalizeActionKeys h (some r) key = (h, r))
    ∧ (∀ (h : KeysHeap) (key : Option String),
       (normalizeActionKeys h none key).2 = h.length
       ∧ ∀ i, i < h.length → (normalizeActionKeys h none key).1.getD i [] = h.getD i []) := by
  refine ⟨?_, ?_, ?_, ?_, ?_⟩
  · intro h r key
    by_cases ht : truthyKey key
    · simp [normalizeActionKeys, ht]
    · simp [normalizeActionKeys, ht]
  · intro h r key ht
    simp [normalizeActionKeys, ht]
  · intro h r key hr ht
    simp only [normalizeActionKeys, ht, if_pos]
    rw [getD_set_self _ _ _ _ (by simpa using hr)]
    simp
  · intro h r key ht
    simp [normalizeActionKeys, ht]
  · intro h key
    by_cases ht : truthyKey key
    · exact ⟨by simp [normalizeActionKeys, ht], fun i hi => by
        simp only [normalizeActionKeys]
        rw [if_pos ht]
        exact getD_append_left _ _ _ _ hi⟩
    · exact ⟨by simp [normalizeActionKeys, ht], fun i hi => by
        simp only [normalizeActionKeys]
        rw [if_neg ht]
        exact getD_append_left _ _ _ _ hi⟩

theorem actionKeys_aliases_raw_array_witness :
    (normalizeActionKeys [["a"]] (some 0) (some "c")).2 = 0
    ∧ (normalizeActionKeys [["a"]] (some 0) (some "c")).1 = [["a", "c"]]
    ∧ normalizeActionKeys [["a"]] (some 0) none = ([["a"]], 0)
    ∧ (normalizeActionKeys [["a"]] none (some "c")).2 = 1 := by
  refine ⟨actionKeys_aliases_raw_array.1 [["a"]] 0 (some "c"), ?_, ?_, ?_⟩
  · have h := actionKeys_aliases_raw_array.2.1 [["a"]] 0 "c" (by decide)
    simpa using h
  · exact actionKeys_aliases_raw_array.2.2.2.1 [["a"]] 0 none rfl
  · exact (actionKeys_aliases_raw_array.2.2.2.2 [["a"]] (some "c")).1

/-- C5: the raw action registration callback always returns normally,
independently of the handler's later outcome (fire-and-forget); a handler
failure in the action or schedule path never reaches the raw framework's
synchronous caller and is observable only through the logger. -/
theorem action_schedule_fire_and_forget :
    (∀ (hd : ActionHandler) (hookCtx : List (String × Value)) (m : RawMeta)
       (eventCtx : List (String × Value)),
       (actionCallback hd hookCtx m eventCtx).immediate = .ok ())
    ∧ (∀ (hd hd' : ActionHandler) (hookCtx : List (String × Value)) (m : RawMeta)
       (eventCtx : List (String × Value)),
       (actionCallback hd hookCtx m eventCtx).immediate =
         (actionCallback hd' hookCtx m eventCtx).immediate)
    ∧ (∀ (hd : ScheduleHandler) (hookCtx : List (String × Value)),
       (scheduleCallback hd hookCtx).syncReturn = .ok ())
    ∧ (∀ (hd : ActionHandler) (hookCtx : List (String × Value)) (m : RawMeta)
       (eventCtx : List (String × Value)) (e : JsError),
       hd (actionMeta m) (mergeContext hookCtx eventCtx m.payload) = .error e →
       (actionCallback hd hookCtx m eventCtx).immediate = .ok ()
       ∧ (actionCallback hd hookCtx m eventCtx).taskLog = [e])
    ∧ (∀ (hd : ScheduleHandler) (hookCtx : List (String × Value)) (e : JsError),
       hd hookCtx = .error e →
       (scheduleCallback hd hookCtx).syncReturn = .ok ()
       ∧ (scheduleCallback hd hookCtx).promiseLog = [e]) := by
  refine ⟨fun hd hookCtx m eventCtx => rfl, fun hd hd' hookCtx m eventCtx => rfl,
    fun hd hookCtx => rfl, ?_, ?_⟩
  · intro hd hookCtx m eventCtx e he
    exact ⟨rfl, by simp [actionCallback, tryCatch, he, logError]⟩
  · intro hd hookCtx e he
    exact ⟨rfl, by simp [scheduleCallback, tryCatch, he, logError]⟩

theorem action_schedule_fire_and_forget_witness :
    (actionCallback (fun _ _ => .error "boom") [] ⟨"items.create", "articles", none, none, Value.null, []⟩ []).immediate = .ok ()
    ∧ (actionCallback (fun _ _ => .error "boom") [] ⟨"items.create", "articles", none, none, Value.null, []⟩ []).taskLog = ["boom"]
    ∧ (scheduleCallback (fun _ => .error "tick") []).syncReturn = .ok ()
    ∧ (scheduleCallback (fun _ => .error "tick") []).promiseLog = ["tick"] := by
  have ha := action_schedule_fire_and_forget.2.2.2.1 (fun _ _ => .error "boom") []
    ⟨"items.create", "articles", none, none, Value.null, []⟩ [] "boom" rfl
  have hs := action_schedule_fire_and_forget.2.2.2.2 (fun _ => .error "tick") [] "tick" rfl
  exact ⟨ha.1, ha.2, hs.1, hs.2⟩

/-- C3: an error thrown by a registered filter, action, or schedule handler is
logged exactly once via the context logger and then re-thrown; the wrapped raw
filter callback consequently rejects with that error and resolves with no
value; a successful handler logs nothing, so no error in this layer goes
unlogged. -/
theorem handler_error_logged_once_then_rethrown :
    (∀ (hd : FilterHandler) (hookCtx : List (String × Value)) (payload : Value) (m : RawMeta)
       (eventCtx : List (String × Value)) (e : JsError) (log : LogEntries),
       hd (filterMeta m) (mergeContext hookCtx eventCtx payload) = .error e →
       filterCallback hd hookCtx payload m eventCtx log = (log ++ [e], .error e))
    ∧ (∀ (hd : FilterHandler) (hookCtx : List (String × Value)) (payload : Value) (m : RawMeta)
       (eventCtx : List (String × Value)) (v : Value) (log : LogEntries),
       hd (filterMeta m) (mergeContext hookCtx eventCtx payload) = .ok v →
       filterCallback hd hookCtx payload m eventCtx log = (log, .ok v))
    ∧ (∀ (hd : ActionHandler) (hookCtx : List (String × Value)) (m : RawMeta)
       (eventCtx : List (String × Value)) (e : JsError),
       hd (actionMeta m) (mergeContext hookCtx eventCtx m.payload) = .error e →
       (actionCallback hd hookCtx m eventCtx).taskLog = [e]
       ∧ (actionCallback hd hookCtx m eventCtx).taskOutcome = .error e)
    ∧ (∀ (hd : ScheduleHandler) (hookCtx : List (String × Value)) (e : JsError),
       hd hookCtx = .error e →
       (scheduleCallback hd hookCtx).promiseLog = [e]
       ∧ (scheduleCallback hd hookCtx).promiseOutcome = .error e) := by
  refine ⟨?_, ?_, ?_, ?_⟩
  · intro hd hookCtx payload m eventCtx e log he
    simp [filterCallback, tryCatch, he, logError]
  · intro hd hookCtx payload m eventCtx v log hv
    simp [filterCallback, tryCatch, hv]
  · intro hd hookCtx m eventCtx e he
    exact ⟨by simp [actionCallback, tryCatch, he, logError],
      by simp [actionCallback, tryCatch, he, logError]⟩
  · intro hd hookCtx e he
    exact ⟨by simp [scheduleCallback, tryCatch, he, logError],
      by simp [scheduleCallback, tryCatch, he, logError]⟩

theorem handler_error_logged_once_then_rethrown_witness :
    filterCallback (fun _ _ => .error "bad payload") [] Value.null
      ⟨"items.update", "articles", none, none, Value.null, []⟩ [] [] = (["bad payload"], .error "bad payload")
    ∧ filterCallback (fun _ _ => .ok (Value.str "ok")) [] Value.null
      ⟨"items.update", "articles", none, none, Value.null, []⟩ [] [] = ([], .ok (Value.str "ok"))
    ∧ (actionCallback (fun _ _ => .error "boom2") [] ⟨"items.create", "articles", none, none, Value.null, []⟩ []).taskLog = ["boom2"]
    ∧ (scheduleCallback (fun _ => .error "tick2") []).promiseOutcome = .error "tick2" := by
  refine ⟨?_, ?_, ?_, ?_⟩
  · exact handler_error_logged_once_then_rethrown.1 _ [] Value.null _ [] "bad payload" [] rfl
  · exact handler_error_logged_once_then_rethrown.2.1 _ [] Value.null _ [] (Value.str "ok") [] rfl
  · exact (handler_error_logged_once_then_rethrown.2.2.1 _ [] _ [] "boom2" rfl).1
  · exact (handler_error_logged_once_then_rethrown.2.2.2 _ [] "tick2" rfl).2

/-- C6: for every filter or action invocation the handler context is a fresh
object (a newly allocated cell, never an existing one), whose mapping copies
the base context's fields, overlays the per-call context's fields, and overlays
`_payload` — the event payload for filters, `rawMeta.payload` for actions —
with top precedence; no existing object, in particular the base context, is
written by the merge. -/
theorem merged_context_fresh_and_layered :
    (∀ (h : ObjHeap) (baseRef callRef : Nat) (p : Value),
       (spreadWithPayload h baseRef callRef p).2 = h.length
       ∧ (∀ i, i < h.length →
           (spreadWithPayload h baseRef callRef p).1.getD i [] = h.getD i [])
       ∧ lookupField "_payload"
           ((spreadWithPayload h baseRef callRef p).1.getD (spreadWithPayload h baseRef callRef p).2 []) = some p
       ∧ (∀ k, "_payload" ≠ k → ∀ v, lookupField k (h.getD callRef []) = some v →
            lookupField k ((spreadWithPayload h baseRef callRef p).1.getD (spreadWithPayload h baseRef callRef p).2 []) = some v)
       ∧ (∀ k, "_payload" ≠ k → lookupField k (h.getD callRef []) = none →
            lookupField k ((spreadWithPayload h baseRef callRef p).1.getD (spreadWithPayload h baseRef callRef p).2 []) = lookupField k (h.getD baseRef [])))
    ∧ (∀ (base call : List (String × Value)) (p : Value),
       (mergeContext base call p)._payload = p)
    ∧ (∀ (base call : List (String × Value)) (p : Value) (k : String) (v : Value),
       lookupField k call = some v → lookupField k (mergeContext base call p).fields = some v)
    ∧ (∀ (base call : List (String × Value)) (p : Value) (k : String),
       lookupField k call = none → lookupField k (mergeContext base call p).fields = lookupField k base)
    ∧ (∀ (hd : FilterHandler) (hookCtx : List (String × Value)) (payload : Value) (m : RawMeta)
       (eventCtx : List (String × Value)) (log : LogEntries),
       filterCallback hd hookCtx payload m eventCtx log =
         tryCatch (hd (filterMeta m) (mergeContext hookCtx eventCtx payload)) logError log)
    ∧ (∀ (hd : ActionHandler) (hookCtx : List (String × Value)) (m : RawMeta)
       (eventCtx : List (String × Value)),
       (actionCallback hd hookCtx m eventCtx).taskOutcome =
         (tryCatch (hd (actionMeta m) (mergeContext hookCtx eventCtx m.payload)) logError []).2) := by
  refine ⟨?_, fun base call p => rfl, ?_, ?_, fun hd hookCtx payload m eventCtx log => rfl,
    fun hd hookCtx m eventCtx => rfl⟩
  · intro h baseRef callRef p
    refine ⟨rfl, fun i hi => getD_append_left _ _ _ _ hi, ?_, ?_, ?_⟩
    · rw [show (spreadWithPayload h baseRef callRef p).1.getD (spreadWithPayload h baseRef callRef p).2 [] =
          ("_payload", p) :: (h.getD callRef [] ++ h.getD baseRef []) from getD_append_length _ _ _]
      simp [lookupField]
    · intro k hk v hv
      rw [show (spreadWithPayload h baseRef callRef p).1.getD (spreadWithPayload h baseRef callRef p).2 [] =
          ("_payload", p) :: (h.getD callRef [] ++ h.getD baseRef []) from getD_append_length _ _ _]
      simp only [lookupField, if_neg hk]
      exact lookupField_append_some hv
    · intro k hk hnone
      rw [show (spreadWithPayload h baseRef callRef p).1.getD (spreadWithPayload h baseRef callRef p).2 [] =
          ("_payload", p) :: (h.getD callRef [] ++ h.getD baseRef []) from getD_append_length _ _ _]
      simp only [lookupField, if_neg hk]
      exact lookupField_append_none hnone
  · intro base call p k v hv
    exact lookupField_append_some hv
  · intro base call p k hnone
    exact lookupField_append_none hnone

theorem merged_context_fresh_and_layered_witness :
    (spreadWithPayload [[("a", Value.str "base"), ("b", Value.str "base2")], [("a", Value.str "call")]] 0 1 (Value.str "pp")).2 = 2
    ∧ (spreadWithPayload [[("a", Value.str "base"), ("b", Value.str "base2")], [("a", Value.str "call")]] 0 1 (Value.str "pp")).1.getD 0 []
        = [("a", Value.str "base"), ("b", Value.str "base2")]
    ∧ lookupField "_payload"
        ((spreadWithPayload [[("a", Value.str "base"), ("b", Value.str "base2")], [("a", Value.str "call")]] 0 1 (Value.str "pp")).1.getD
          (spreadWithPayload [[("a", Value.str "base"), ("b", Value.str "base2")], [("a", Value.str "call")]] 0 1 (Value.str "pp")).2 [])
        = some (Value.str "pp")
    ∧ lookupField "a"
        ((spreadWithPayload [[("a", Value.str "base"), ("b", Value.str "base2")], [("a", Value.str "call")]] 0 1 (Value.str "pp")).1.getD
          (spreadWithPayload [[("a", Value.str "base"), ("b", Value.str "base2")], [("a", Value.str "call")]] 0 1 (Value.str "pp")).2 [])
        = some (Value.str "call")
    ∧ lookupField "b"
        ((spreadWithPayload [[("a", Value.str "base"), ("b", Value.str "base2")], [("a", Value.str "call")]] 0 1 (Value.str "pp")).1.getD
          (spreadWithPayload [[("a", Value.str "base"), ("b", Value.str "base2")], [("a", Value.str "call")]] 0 1 (Value.str "pp")).2 [])
        = some (Value.str "base2") := by
  have h := merged_context_fresh_and_layered.1
    [[("a", Value.str "base"), ("b", Value.str "base2")], [("a", Value.str "call")]] 0 1 (Value.str "pp")
  refine ⟨h.1, h.2.1 0 (by decide), h.2.2.1, ?_, ?_⟩
  · exact h.2.2.2.1 "a" (by decide) (Value.str "call") rfl
  · have hb := h.2.2.2.2 "b" (by decide) (by rfl)
    rw [hb]
    rfl

/-- C1: on a union schema, `readHookPayload` (and `readTriggerPayload`)
attempts each alternative in declared order, each in passthrough mode, and
returns the first accepting alternative's passthrough output exactly; when no
alternative accepts, it fails with the union's diagnostic. -/
theorem readHookPayload_union_first_match :
    (∀ (ctx : HookContext) (pre : List Schema) (s : Schema) (post : List Schema) (r : Value),
       (∀ t ∈ pre, accepts (passthroughAlternative t) ctx._payload = false) →
       parseSchema (passthroughAlternative s) ctx._payload = .ok r →
       readHookPayload ctx (.union (pre ++ s :: post)) = .ok r)
    ∧ (∀ (ctx : HookContext) (options : List Schema),
       (∀ t ∈ options, accepts (passthroughAlternative t) ctx._payload = false) →
       readHookPayload ctx (.union options) = .error invalidUnionMessage)
    ∧ (∀ (octx : OperationContext) (s : Schema),
       readTriggerPayload octx s = readHookPayload ⟨[], octx.data.trigger.payload⟩ s) := by
  refine ⟨?_, ?_, fun octx s => rfl⟩
  · intro ctx pre s post r hpre hs
    rw [readHookPayload_union_eq, List.map_append, List.map_cons]
    have hskip :
        parseOptions
          (pre.map passthroughAlternative ++
            passthroughAlternative s :: post.map passthroughAlternative) ctx._payload =
        parseOptions (passthroughAlternative s :: post.map passthroughAlternative) ctx._payload :=
      parseOptions_skip (fun t ht => by
        obtain ⟨u, hu, rfl⟩ := List.mem_map.mp ht
        exact hpre u hu)
    rw [hskip]
    exact parseOptions_cons_ok hs
  · intro ctx options hall
    rw [readHookPayload_union_eq]
    exact parseOptions_all_fail (fun t ht => by
      obtain ⟨u, hu, rfl⟩ := List.mem_map.mp ht
      exact hall u hu)

theorem readHookPayload_union_first_match_witness :
    readHookPayload ⟨[], .obj [("foo", .str "bar"), ("bar", .str "baz")]⟩
      (.union [.obj [("foo", .str)] .strip, .obj [("qux", .str)] .strip])
      = .ok (.obj [("foo", .str "bar"), ("bar", .str "baz")])
    ∧ readHookPayload ⟨[], .num 3⟩
      (.union [.obj [("foo", .str)] .strip, .obj [("qux", .str)] .strip])
      = .error invalidUnionMessage := by
  constructor
  · exact readHookPayload_union_first_match.1 ⟨[], .obj [("foo", .str "bar"), ("bar", .str "baz")]⟩
      [] (.obj [("foo", .str)] .strip) [.obj [("qux", .str)] .strip]
      (.obj [("foo", .str "bar"), ("bar", .str "baz")])
      (fun t ht => absurd ht (List.not_mem_nil t))
      (by simp [passthroughAlternative, parseSchema, parseShape, lookupField,
        undeclaredFields, declaredKeys])
  · exact readHookPayload_union_first_match.2.1 ⟨[], .num 3⟩
      [.obj [("foo", .str)] .strip, .obj [("qux", .str)] .strip]
      (fun t ht => by
        rcases List.mem_cons.mp ht with rfl | ht2
        · simp [passthroughAlternative, accepts, parseSchema]
        · rcases List.mem_cons.mp ht2 with rfl | ht3
          · simp [passthroughAlternative, accepts, parseSchema]
          · exact absurd ht3 (List.not_mem_nil t))

/-- C7: a raw value rejected by an object schema makes `readHookPayload` fail
with a diagnostic carrying the underlying validator failure — a mistyped
declared field propagates that field's error, a missing declared field reports
it — and no partial result is ever returned (a success implies acceptance). -/
theorem readHookPayload_rejects_totally :
    (∀ (ctx : HookContext) (s : Schema),
       accepts s.passthrough ctx._payload = false →
       ∃ e, readHookPayload ctx s = .error e)
    ∧ (∀ (ctx : HookContext) (s : Schema) (r : Value),
       readHookPayload ctx s = .ok r → accepts s.passthrough ctx._payload = true)
    ∧ (∀ (ctx : HookContext) (pre post : List (String × Schema)) (k : String) (s : Schema)
         (mode : UnknownKeys) (pairs : List (String × Value)) (v : Value) (e : String),
       ctx._payload = .obj pairs →
       (∀ p ∈ pre, ∃ w w', lookupField p.1 pairs = some w ∧ parseSchema p.2 w = .ok w') →
       lookupField k pairs = some v →
       parseSchema s v = .error e →
       readHookPayload ctx (.obj (pre ++ (k, s) :: post) mode) = .error e)
    ∧ (∀ (ctx : HookContext) (pre post : List (String × Schema)) (k : String) (s : Schema)
         (mode : UnknownKeys) (pairs : List (String × Value)),
       ctx._payload = .obj pairs →
       (∀ p ∈ pre, ∃ w w', lookupField p.1 pairs = some w ∧ parseSchema p.2 w = .ok w') →
       lookupField k pairs = none →
       readHookPayload ctx (.obj (pre ++ (k, s) :: post) mode) =
         .error ("missing required field " ++ k)) := by
  refine ⟨?_, ?_, ?_, ?_⟩
  · intro ctx s hacc
    obtain ⟨e, he⟩ := accepts_false_iff.mp hacc
    exact ⟨e, by rw [readHookPayload, he]⟩
  · intro ctx s r h
    rw [readHookPayload] at h
    exact accepts_true_iff.mpr ⟨r, h⟩
  · intro ctx pre post k s mode pairs v e hpl hpre hlk hps
    rw [readHookPayload, passthrough_obj, hpl]
    exact parseObj_error_of_parseShape_error (parseShape_prefix_error hpre hlk hps)
  · intro ctx pre post k s mode pairs hpl hpre hlk
    rw [readHookPayload, passthrough_obj, hpl]
    exact parseObj_error_of_parseShape_error (parseShape_prefix_missing hpre hlk)

theorem readHookPayload_rejects_totally_witness :
    readHookPayload ⟨[], .obj [("foo", .num 3)]⟩ (.obj [("foo", .str)] .strip)
      = .error "expected string"
    ∧ readHookPayload ⟨[], .obj []⟩ (.obj [("foo", .str)] .strip)
      = .error ("missing required field " ++ "foo") := by
  constructor
  · exact readHookPayload_rejects_totally.2.2.1 ⟨[], .obj [("foo", .num 3)]⟩ [] [] "foo" .str
      .strip [("foo", .num 3)] (.num 3) "expected string" rfl
      (fun p hp => absurd hp (List.not_mem_nil p)) rfl (by simp [parseSchema])
  · exact readHookPayload_rejects_totally.2.2.2 ⟨[], .obj []⟩ [] [] "foo" .str .strip [] rfl
      (fun p hp => absurd hp (List.not_mem_nil p)) rfl

/-- C2: for a single object schema accepting the raw value, `readHookPayload`
(and `readTriggerPayload`) preserves unchanged every raw field the schema does
not declare — at the top level and recursively inside nested sub-objects whose
own sub-schema is configured for passthrough — binds every declared field to
its validated value, and never invents fields. -/
theorem readHookPayload_object_passthrough_fields
    (ctx : HookContext) (shape : List (String × Schema)) (mode : UnknownKeys)
    (pairs out : List (String × Value))
    (hpl : ctx._payload = .obj pairs)
    (hok : readHookPayload ctx (.obj shape mode) = .ok (.obj out)) :
    (∀ k v, k ∉ declaredKeys shape → lookupField k pairs = some v → lookupField k out = some v)
    ∧ (∀ k, (lookupField k out).isSome → (lookupField k pairs).isSome)
    ∧ (∀ k s, (declaredKeys shape).Nodup → (k, s) ∈ shape →
        ∃ v v', lookupField k pairs = some v ∧ parseSchema s v = .ok v' ∧
          lookupField k out = some v')
    ∧ (∀ k subShape innerPairs innerOut,
        (declaredKeys shape).Nodup →
        (k, Schema.obj subShape .passthrough) ∈ shape →
        lookupField k pairs = some (.obj innerPairs) →
        lookupField k out = some (.obj innerOut) →
        ∀ k' v', k' ∉ declaredKeys subShape → lookupField k' innerPairs = some v' →
          lookupField k' innerOut = some v')
    ∧ (∀ octx : OperationContext,
        readTriggerPayload octx (.obj shape mode) =
          readHookPayload ⟨[], octx.data.trigger.payload⟩ (.obj shape mode)) := by
  have hps : parseSchema (.obj shape .passthrough) (.obj pairs) = .ok (.obj out) := by
    rw [readHookPayload, passthrough_obj, hpl] at hok
    exact hok
  refine ⟨?_, ?_, ?_, ?_, fun octx => rfl⟩
  · intro k v hk hlk
    exact parseObj_passthrough_preserves hps hk hlk
  · intro k hk
    exact parseObj_passthrough_no_invent hps hk
  · intro k s hnd hmem
    exact parseObj_passthrough_declared hnd hps hmem
  · intro k subShape innerPairs innerOut hnd hmem hlkPairs hlkOut k' v' hk' hlk'
    obtain ⟨w, w', hlk1, hps1, hout1⟩ := parseObj_passthrough_declared hnd hps hmem
    rw [hlk1] at hlkPairs
    injection hlkPairs with hw
    subst hw
    rw [hout1] at hlkOut
    injection hlkOut with hw'
    subst hw'
    exact parseObj_passthrough_preserves hps1 hk' hlk'

theorem readHookPayload_object_passthrough_fields_witness :
    readHookPayload
      ⟨[], .obj [("foo", .str "foo-value"),
        ("bar", .obj [("baz", .str "baz-value"), ("qux", .str "qux-value")]),
        ("last", .str "last-value")]⟩
      (.obj [("foo", Schema.str), ("bar", Schema.obj [("baz", Schema.str)] .passthrough)] .strip)
      = .ok (.obj [("foo", .str "foo-value"),
          ("bar", .obj [("baz", .str "baz-value"), ("qux", .str "qux-value")]),
          ("last", .str "last-value")])
    ∧ lookupField "last"
        [("foo", Value.str "foo-value"),
         ("bar", Value.obj [("baz", Value.str "baz-value"), ("qux", Value.str "qux-value")]),
         ("last", Value.str "last-value")] = some (.str "last-value")
    ∧ lookupField "qux"
        [("baz", Value.str "baz-value"), ("qux", Value.str "qux-value")]
        = some (.str "qux-value") := by
  have hok : readHookPayload
      ⟨[], .obj [("foo", .str "foo-value"),
        ("bar", .obj [("baz", .str "baz-value"), ("qux", .str "qux-value")]),
        ("last", .str "last-value")]⟩
      (.obj [("foo", Schema.str), ("bar", Schema.obj [("baz", Schema.str)] .passthrough)] .strip)
      = .ok (.obj [("foo", .str "foo-value"),
          ("bar", .obj [("baz", .str "baz-value"), ("qux", .str "qux-value")]),
          ("last", .str "last-value")]) := by
    simp [readHookPayload, Schema.passthrough, parseSchema, parseShape, lookupField,
      undeclaredFields, declaredKeys]
  have h := readHookPayload_object_passthrough_fields
    ⟨[], .obj [("foo", .str "foo-value"),
      ("bar", .obj [("baz", .str "baz-value"), ("qux", .str "qux-value")]),
      ("last", .str "last-value")]⟩
    [("foo", Schema.str), ("bar", Schema.obj [("baz", Schema.str)] .passthrough)] .strip
    [("foo", .str "foo-value"),
     ("bar", .obj [("baz", .str "baz-value"), ("qux", .str "qux-value")]),
     ("last", .str "last-value")]
    [("foo", .str "foo-value"),
     ("bar", .obj [("baz", .str "baz-value"), ("qux", .str "qux-value")]),
     ("last", .str "last-value")]
    rfl hok
  refine ⟨hok, h.1 "last" (.str "last-value") (by decide) rfl, ?_⟩
  exact h.2.2.2.1 "bar" [("baz", Schema.str)]
    [("baz", .str "baz-value"), ("qux", .str "qux-value")]
    [("baz", .str "baz-value"), ("qux", .str "qux-value")]
    (by decide) (List.mem_cons_of_mem _ (List.mem_cons_self _ _)) rfl rfl
    "qux" (.str "qux-value") (by decide) rfl

end DirectusSdkUtils
